import Mathlib

/-!
Verification development for the Minesweeper knowledge-base inference engine
of `src/minesweeper/minesweeper.py`.

The Python code is shallowly embedded as follows.

* A board cell `(i, j)` is a pair of integers (`Cell`).
* A Python `set` of cells is a `Finset Cell` (value equality, no order,
  no duplicates — exactly the observable behaviour of Python sets here).
* `Sentence` is a structure with a `Finset Cell` of cells and an integer
  `count` (Python ints are unbounded and the code can drive `count`
  negative, so `count : ℤ`).
* `MinesweeperAI` is the structure `AIState`; its `knowledge` list is a
  `List Sentence` (Python list, order preserved).
* `MinesweeperAI.add_knowledge` is `add_knowledge`, written as a pure state
  transformer, staged exactly as the Python method: steps 1–2
  (`afterStep2`), step 3 (`newSentence`, `afterStep3`), step 4
  (`afterStep4`), step 5 (`inferDerived`) and step 6 (`simplify`).
  The three remove-while-iterating loops of step 6 each iterate over a copy
  of the list and call `list.remove` (first occurrence equal to the value)
  for every element satisfying the predicate; since `Sentence.__eq__`
  compares by value and the predicates depend only on the value, the net
  effect of each loop is to drop every element satisfying the predicate,
  i.e. a `List.filter` with the negated predicate.
* `Minesweeper.nearby_mines` (the oracle) is `nearby_mines`, with the mine
  layout as a `Finset Cell` of mine positions (`board[i][j] == True` iff
  `(i, j)` is in the layout).
* `make_safe_move` builds `legal` by iterating over the set
  `self.safes` (unspecified iteration order) keeping the cells not in
  `moves_made`, and returns `legal[0]` or `None`; it is embedded as the
  head of the element list of `safes \ moves_made`, a refinement of the
  unspecified set-iteration order.  The Python method mutates nothing; the
  embedding is accordingly a function of the state only.
* `make_random_move` draws `random.randrange(len(possible))`; the random
  source is modelled by an injected natural number reduced modulo the
  length, and the `IndexError` branch for the empty list returns `none`.
-/

abbrev Cell : Type := ℤ × ℤ

/-- `class Sentence`: a set of board cells and a count of how many of those
cells are mines.  Python `__eq__` compares both fields by value. -/
structure Sentence where
  cells : Finset Cell
  count : ℤ
  deriving DecidableEq

/-- `Sentence.known_mines`: the full cell set if `len(self.cells) == self.count`,
else the empty set. -/
def Sentence.known_mines (t : Sentence) : Finset Cell :=
  if (t.cells.card : ℤ) = t.count then t.cells else ∅

/-- `Sentence.known_safes`: the full cell set if `self.count == 0`, else empty. -/
def Sentence.known_safes (t : Sentence) : Finset Cell :=
  if t.count = 0 then t.cells else ∅

/-- `Sentence.mark_mine`: if the cell is a member, remove it and decrement
`count`; otherwise do nothing. -/
def Sentence.mark_mine (t : Sentence) (c : Cell) : Sentence :=
  if c ∈ t.cells then ⟨t.cells.erase c, t.count - 1⟩ else t

/-- `Sentence.mark_safe`: if the cell is a member, remove it, leaving `count`
unchanged; otherwise do nothing. -/
def Sentence.mark_safe (t : Sentence) (c : Cell) : Sentence :=
  if c ∈ t.cells then ⟨t.cells.erase c, t.count⟩ else t

/-- The double loop `for i in range(cell[0]-1, cell[0]+2): for j in
range(cell[1]-1, cell[1]+2)` minus the cell itself: the 8-neighbourhood. -/
def nbrs (c : Cell) : Finset Cell :=
  (Finset.Icc (c.1 - 1) (c.1 + 1) ×ˢ Finset.Icc (c.2 - 1) (c.2 + 1)).erase c

/-- The bounds check `0 <= i < self.height and 0 <= j < self.width`. -/
def inBounds (h w : ℤ) (c : Cell) : Prop :=
  0 ≤ c.1 ∧ c.1 < h ∧ 0 ≤ c.2 ∧ c.2 < w

instance instDecidableInBounds (h w : ℤ) (c : Cell) : Decidable (inBounds h w c) := by
  unfold inBounds; infer_instance

/-- `Minesweeper.nearby_mines`: the number of in-bounds neighbours of `cell`
that carry a mine in the layout `board`. -/
def nearby_mines (h w : ℤ) (board : Finset Cell) (cell : Cell) : ℤ :=
  (((nbrs cell).filter fun p => inBounds h w p ∧ p ∈ board).card : ℤ)

/-- The `MinesweeperAI` object state. -/
structure AIState where
  height : ℤ
  width : ℤ
  moves_made : Finset Cell
  mines : Finset Cell
  safes : Finset Cell
  knowledge : List Sentence
  deriving DecidableEq

/-- `MinesweeperAI.__init__`. -/
def initAI (height width : ℤ) : AIState :=
  ⟨height, width, ∅, ∅, ∅, []⟩

/-- `MinesweeperAI.mark_mine`: add the cell to `self.mines` and call
`Sentence.mark_mine` on every sentence in `self.knowledge`. -/
def AIState.mark_mine (s : AIState) (c : Cell) : AIState :=
  { s with mines := insert c s.mines,
           knowledge := s.knowledge.map fun t => t.mark_mine c }

/-- `MinesweeperAI.mark_safe`: add the cell to `self.safes` and call
`Sentence.mark_safe` on every sentence in `self.knowledge`. -/
def AIState.mark_safe (s : AIState) (c : Cell) : AIState :=
  { s with safes := insert c s.safes,
           knowledge := s.knowledge.map fun t => t.mark_safe c }

/-- Steps 1 and 2 of `add_knowledge`: `self.moves_made.add(cell)` and
`self.mark_safe(cell)`. -/
def afterStep2 (s : AIState) (cell : Cell) : AIState :=
  AIState.mark_safe { s with moves_made := insert cell s.moves_made } cell

/-- The `neighbors` set built in step 3 of `add_knowledge`: in-bounds
neighbours of `cell` not in `self.safes`, not in `self.moves_made` and not
in `self.mines` (read from the state after steps 1–2). -/
def sentenceCells (s : AIState) (cell : Cell) : Finset Cell :=
  (nbrs cell).filter fun p =>
    inBounds s.height s.width p ∧ p ∉ s.safes ∧ p ∉ s.moves_made ∧ p ∉ s.mines

/-- The `nearby_mines` list built in step 3 of `add_knowledge`: in-bounds
neighbours not in `self.safes`, not in `self.moves_made` but in `self.mines`
(those are excluded from the sentence and counted instead). -/
def nearbyKnownMines (s : AIState) (cell : Cell) : Finset Cell :=
  (nbrs cell).filter fun p =>
    inBounds s.height s.width p ∧ p ∉ s.safes ∧ p ∉ s.moves_made ∧ p ∈ s.mines

/-- The sentence `Sentence(cells=neighbors, count=count-len(nearby_mines))`
built in step 3 of `add_knowledge`. -/
def newSentence (s : AIState) (cell : Cell) (count : ℤ) : Sentence :=
  ⟨sentenceCells s cell, count - ((nearbyKnownMines s cell).card : ℤ)⟩

/-- Step 3 of `add_knowledge`: append the new sentence to `self.knowledge`. -/
def afterStep3 (s : AIState) (cell : Cell) (count : ℤ) : AIState :=
  { afterStep2 s cell with
    knowledge := (afterStep2 s cell).knowledge
      ++ [newSentence (afterStep2 s cell) cell count] }

/-- The union of `known_mines()` over a knowledge list, as collected by the
step-4 loop of `add_knowledge`. -/
def knownMinesAll : List Sentence → Finset Cell
  | [] => ∅
  | t :: ts => t.known_mines ∪ knownMinesAll ts

/-- The union of `known_safes()` over a knowledge list, as collected by the
step-4 loop of `add_knowledge`. -/
def knownSafesAll : List Sentence → Finset Cell
  | [] => ∅
  | t :: ts => t.known_safes ∪ knownSafesAll ts

/-- Step 4 of `add_knowledge`: the collected cells are added to `self.mines`
and `self.safes` with plain `set.add` — the code does *not* call
`self.mark_mine` / `self.mark_safe` here, so the sentences themselves are
left untouched. -/
def afterStep4 (s : AIState) : AIState :=
  { s with mines := s.mines ∪ knownMinesAll s.knowledge,
           safes := s.safes ∪ knownSafesAll s.knowledge }

/-- Step 5 of `add_knowledge`: the `to_add` list.  The loop runs over
`self.knowledge` and compares every sentence with `new_sentence` only. -/
def inferDerived (ns : Sentence) : List Sentence → List Sentence
  | [] => []
  | old :: rest =>
      (if ns.cells ≠ ∅ ∧ old.cells ≠ ns.cells then
        (if old.cells ⊆ ns.cells then
          [Sentence.mk (ns.cells \ old.cells) (ns.count - old.count)] else [])
          ++
        (if ns.cells ⊆ old.cells then
          [Sentence.mk (old.cells \ ns.cells) (old.count - ns.count)] else [])
      else []) ++ inferDerived ns rest

/-- Step 6 of `add_knowledge`: the three copy-and-remove loops, dropping
sentences with no cells, then sentences with `count == 0`, then sentences
with `len(cells) == count`. -/
def simplify (k : List Sentence) : List Sentence :=
  ((k.filter fun t => decide (t.cells ≠ ∅)).filter
    fun t => decide (t.count ≠ 0)).filter
    fun t => decide ((t.cells.card : ℤ) ≠ t.count)

/-- `MinesweeperAI.add_knowledge`, steps 1–6 in the order of the source. -/
def add_knowledge (s : AIState) (cell : Cell) (count : ℤ) : AIState :=
  let s4 := afterStep4 (afterStep3 s cell count)
  let ns := newSentence (afterStep2 s cell) cell count
  { s4 with knowledge := simplify (s4.knowledge ++ inferDerived ns s4.knowledge) }

/-- Row-major (lexicographic) order on cells: the order in which the Python
loops enumerate the grid, used to list the elements of a cell set. -/
def lexLe (a b : Cell) : Prop :=
  a.1 < b.1 ∨ (a.1 = b.1 ∧ a.2 ≤ b.2)

instance instDecidableLexLe : DecidableRel lexLe := fun a b => by
  unfold lexLe; infer_instance

instance instIsTransLexLe : IsTrans Cell lexLe :=
  ⟨fun a b c hab hbc => by unfold lexLe at hab hbc ⊢; omega⟩

instance instIsAntisymmLexLe : IsAntisymm Cell lexLe :=
  ⟨fun a b hab hba => by
    unfold lexLe at hab hba
    exact Prod.ext_iff.mpr ⟨by omega, by omega⟩⟩

instance instIsTotalLexLe : IsTotal Cell lexLe :=
  ⟨fun a b => by unfold lexLe; omega⟩

/-- `MinesweeperAI.make_safe_move`: some cell of `safes` not in
`moves_made` (the first in the row-major listing of that set), or `none`.
The Python method only reads `safes` and `moves_made`; it mutates nothing,
which the embedding reflects by returning no state. -/
def make_safe_move (s : AIState) : Option Cell :=
  ((s.safes \ s.moves_made).sort lexLe).head?

/-- All grid cells, `for i in range(self.height): for j in range(self.width)`. -/
def allCells (h w : ℤ) : Finset Cell :=
  Finset.Icc 0 (h - 1) ×ˢ Finset.Icc 0 (w - 1)

/-- `MinesweeperAI.make_random_move` with the random draw injected as `k`:
a cell of the grid that is neither a known mine nor an already-made move
(the Python code builds this candidate list in row-major order and indexes
it with `random.randrange`), or `none` when no candidate is left. -/
def make_random_move (s : AIState) (k : ℕ) : Option Cell :=
  let possible :=
    ((allCells s.height s.width).filter fun p =>
      p ∉ s.mines ∧ p ∉ s.moves_made).sort lexLe
  possible.get? (k % possible.length)

/-- Driving the engine with the true oracle: each queried cell is fed
`Minesweeper.nearby_mines` of the fixed layout `board`. -/
def runGame (board : Finset Cell) : AIState → List Cell → AIState
  | s, [] => s
  | s, c :: cs =>
      runGame board (add_knowledge s c (nearby_mines s.height s.width board c)) cs

/-- A sentence is true of a mine layout when exactly `count` of its cells
are mines of that layout. -/
def Sentence.holds (board : Finset Cell) (t : Sentence) : Prop :=
  (((t.cells.filter fun p => p ∈ board).card : ℤ)) = t.count

/-- The soundness invariant of the engine state with respect to a fixed mine
layout: classified mines are mines, classified safes are not, made moves are
classified safe, and every sentence of the knowledge base is true. -/
def Sound (board : Finset Cell) (s : AIState) : Prop :=
  s.mines ⊆ board ∧ (∀ p ∈ s.safes, p ∉ board) ∧ s.moves_made ⊆ s.safes ∧
    ∀ t ∈ s.knowledge, t.holds board

/-! ### Concrete runs used by the claims about specific scenarios -/

/-- A consistent two-call game on a 2×4 grid whose only mine is `(1,3)`:
reveal `(0,2)` (true count 1), then `(0,0)` (true count 0). -/
def traceBoard : Finset Cell := {((1 : ℤ), (3 : ℤ))}

/-- The engine state after the two consistent calls of `traceBoard`. -/
def traceState : AIState :=
  runGame traceBoard (initAI 2 4) [(0, 2), (0, 0)]

/-- The pre-state of the subset-pairing scenario of the spec: the knowledge
base already holds `A = {(1,1),(1,2)} count 1`, and `(0,1)`, `(0,3)` have
been visited and classified safe, on a 2×4 grid. -/
def c5Pre : AIState :=
  ⟨2, 4, {((0 : ℤ), (1 : ℤ)), (0, 3)}, ∅, {((0 : ℤ), (1 : ℤ)), (0, 3)},
    [⟨{((1 : ℤ), (1 : ℤ)), (1, 2)}, 1⟩]⟩

/-- The subset-pairing scenario call: reveal `(0,2)` with count 2, which
builds `B = {(1,1),(1,2),(1,3)} count 2`. -/
def c5Post : AIState := add_knowledge c5Pre (0, 2) 2

/-- A consistent four-call game on a 3×5 grid with mines `(1,3)` and
`(2,3)`: reveal `(0,0)`, `(0,2)`, `(2,2)`, `(0,3)` (true counts
0, 1, 2, 1). -/
def c4Board : Finset Cell := {((1 : ℤ), (3 : ℤ)), (2, 3)}

/-- The state after the first three calls of the `c4Board` game. -/
def c4Pre : AIState :=
  runGame c4Board (initAI 3 5) [(0, 0), (0, 2), (2, 2)]

/-- The state after the fourth call, which narrows `{(0,3),(1,2),(1,3)} = 1`
to `A = {(1,2),(1,3)} = 1`, a strict subset of the live sentence
`B = {(1,2),(1,3),(2,1),(2,3)} = 2` already in the knowledge base. -/
def c4State : AIState :=
  runGame c4Board (initAI 3 5) [(0, 0), (0, 2), (2, 2), (0, 3)]

/-- The 1×3-grid scenario state: `add_knowledge((0,0), 0)` on a fresh engine. -/
def c6State : AIState := add_knowledge (initAI 1 3) (0, 0) 0

/-- A fresh 1×3 engine fed the inconsistent report `count = 5` for `(0,0)`. -/
def c7State : AIState := add_knowledge (initAI 1 3) (0, 0) 5

/-- A 1×4 engine that already knows the mine `(0,0)`, fed the inconsistent
report `count = 0` for `(0,1)`: the new sentence gets count `-1`. -/
def c7NegState : AIState :=
  add_knowledge ⟨1, 4, ∅, {((0 : ℤ), (0 : ℤ))}, ∅, []⟩ (0, 1) 0

/-- A 2×5 pre-state holding the sentence `{(1,2),(1,3)} = 1`, used to
instantiate the subset-inference theorem at a concrete input. -/
def c4wPre : AIState :=
  ⟨2, 5, {((0 : ℤ), (1 : ℤ))}, ∅, {((0 : ℤ), (1 : ℤ))},
    [⟨{((1 : ℤ), (2 : ℤ)), (1, 3)}, 1⟩]⟩

/-- A 2×5 pre-state holding a sentence whose cells strictly contain the new
sentence built by the call `add_knowledge((0,3), 2)`, used to instantiate
the symmetric (new-inside-old) direction of the subset-inference theorem. -/
def c4wPre2 : AIState :=
  ⟨2, 5, {((0 : ℤ), (1 : ℤ))}, ∅, {((0 : ℤ), (1 : ℤ))},
    [⟨{((0 : ℤ), (2 : ℤ)), (0, 4), (1, 2), (1, 3), (1, 4), (8, 8), (9, 9)}, 3⟩]⟩

/-- A 2×3 state that already knows the mine `(1,1)`, used to instantiate the
sentence-construction theorem at a concrete input. -/
def c8wState : AIState := ⟨2, 3, ∅, {((1 : ℤ), (1 : ℤ))}, ∅, []⟩

/-- A 1×1 state with one known safe unvisited cell, used to instantiate the
`make_safe_move` theorem at a concrete input. -/
def c9wState : AIState := ⟨1, 1, ∅, ∅, {((0 : ℤ), (0 : ℤ))}, []⟩

/-! ### Unfolding lemmas for the stages of `add_knowledge` -/

theorem afterStep2_height (s : AIState) (cell : Cell) :
    (afterStep2 s cell).height = s.height := rfl

theorem afterStep2_width (s : AIState) (cell : Cell) :
    (afterStep2 s cell).width = s.width := rfl

theorem afterStep2_moves_made (s : AIState) (cell : Cell) :
    (afterStep2 s cell).moves_made = insert cell s.moves_made := rfl

theorem afterStep2_mines (s : AIState) (cell : Cell) :
    (afterStep2 s cell).mines = s.mines := rfl

theorem afterStep2_safes (s : AIState) (cell : Cell) :
    (afterStep2 s cell).safes = insert cell s.safes := rfl

theorem afterStep2_knowledge (s : AIState) (cell : Cell) :
    (afterStep2 s cell).knowledge = s.knowledge.map fun t => t.mark_safe cell := rfl

theorem afterStep3_knowledge (s : AIState) (cell : Cell) (count : ℤ) :
    (afterStep3 s cell count).knowledge
      = (s.knowledge.map fun t => t.mark_safe cell)
          ++ [newSentence (afterStep2 s cell) cell count] := rfl

theorem add_knowledge_height (s : AIState) (cell : Cell) (count : ℤ) :
    (add_knowledge s cell count).height = s.height := rfl

theorem add_knowledge_width (s : AIState) (cell : Cell) (count : ℤ) :
    (add_knowledge s cell count).width = s.width := rfl

theorem add_knowledge_moves_made (s : AIState) (cell : Cell) (count : ℤ) :
    (add_knowledge s cell count).moves_made = insert cell s.moves_made := rfl

theorem add_knowledge_mines (s : AIState) (cell : Cell) (count : ℤ) :
    (add_knowledge s cell count).mines
      = s.mines ∪ knownMinesAll (afterStep3 s cell count).knowledge := rfl

theorem add_knowledge_safes (s : AIState) (cell : Cell) (count : ℤ) :
    (add_knowledge s cell count).safes
      = insert cell s.safes ∪ knownSafesAll (afterStep3 s cell count).knowledge := rfl

theorem add_knowledge_knowledge (s : AIState) (cell : Cell) (count : ℤ) :
    (add_knowledge s cell count).knowledge
      = simplify ((afterStep3 s cell count).knowledge
          ++ inferDerived (newSentence (afterStep2 s cell) cell count)
              (afterStep3 s cell count).knowledge) := rfl

/-! ### Claims about concrete scenarios -/

/-- C2: the claim fails on the code.  In the consistent two-call game
`traceState` (2×4 grid, mine at `(1,3)`), the direct-inference pass of the
second call identifies `(0,1)` as safe and adds it to `safes`, but
`mark_safe` is never invoked on the live sentences (step 4 uses plain
`set.add`, and the `MinesweeperAI.mark_mine` helper written for this purpose
is never called anywhere): the live sentence
`{(0,1),(0,3),(1,1),(1,2),(1,3)} = 1` still contains `(0,1)` when the call
returns. -/
theorem C2_direct_pass_does_not_narrow :
    ((0 : ℤ), (1 : ℤ)) ∈ traceState.safes ∧
      (⟨{((0 : ℤ), (1 : ℤ)), (0, 3), (1, 1), (1, 2), (1, 3)}, 1⟩ : Sentence)
        ∈ traceState.knowledge := by decide

/-- C3: the at-rest disjointness invariant fails on the code.  After the
consistent two-call game `traceState`, a sentence remaining in the knowledge
collection has a cell that is in `mines ∪ safes`. -/
theorem C3_live_sentence_meets_classified :
    ∃ t ∈ traceState.knowledge, ∃ p ∈ t.cells,
      p ∈ traceState.mines ∪ traceState.safes := by decide

/-- C4 counterexample: after the consistent four-call game `c4State`
(3×5 grid, mines `(1,3)`,`(2,3)`), the knowledge base holds the distinct
live sentences `A = {(1,2),(1,3)} = 1` and `B = {(1,2),(1,3),(2,1),(2,3)} = 2`
with `A.cells` a strict subset of `B.cells`, yet the derived sentence
`{(2,1),(2,3)} = 1` — which none of the simplification filters would remove —
is absent: the subset pass of the fourth call (`add_knowledge c4Pre (0,3) 1`)
derived nothing from the pair `(A, B)` because neither is the sentence just
added. -/
theorem C4_counterexample :
    (⟨{((1 : ℤ), (2 : ℤ)), (1, 3)}, 1⟩ : Sentence) ∈ c4State.knowledge ∧
      (⟨{((1 : ℤ), (2 : ℤ)), (1, 3), (2, 1), (2, 3)}, 2⟩ : Sentence)
        ∈ c4State.knowledge ∧
      ({((1 : ℤ), (2 : ℤ)), (1, 3)} : Finset Cell)
        ⊂ ({((1 : ℤ), (2 : ℤ)), (1, 3), (2, 1), (2, 3)} : Finset Cell) ∧
      (⟨{((2 : ℤ), (1 : ℤ)), (2, 3)}, 1⟩ : Sentence) ∉ c4State.knowledge ∧
      c4State = add_knowledge c4Pre (0, 3) 1 ∧
      (⟨{((2 : ℤ), (1 : ℤ)), (2, 3)}, 1⟩ : Sentence) ∉
        inferDerived (newSentence (afterStep2 c4Pre (0, 3)) (0, 3) 1)
          (afterStep3 c4Pre (0, 3) 1).knowledge := by decide

/-- C5: the claim fails on the code.  In the spec's own subset-pairing
scenario (`c5Pre` holds `A = {(1,1),(1,2)} = 1`; the call builds
`B = {(1,1),(1,2),(1,3)} = 2`), the derived sentence `{(1,3)} = 1` is
removed by the `|cells| == count` simplification loop without `(1,3)` ever
being added to `mines` (the direct-inference pass ran before the subset
pass), so the classification is lost: `mines` is empty when the call
returns. -/
theorem C5_drops_unextracted_classification :
    newSentence (afterStep2 c5Pre (0, 2)) (0, 2) 2
        = ⟨{((1 : ℤ), (1 : ℤ)), (1, 2), (1, 3)}, 2⟩ ∧
      c5Post.mines = ∅ ∧
      c5Post.knowledge
        = [⟨{((1 : ℤ), (1 : ℤ)), (1, 2)}, 1⟩,
           ⟨{((1 : ℤ), (1 : ℤ)), (1, 2), (1, 3)}, 2⟩] := by decide

/-- C6 counterexample: on the 1×3 grid, after the single call
`add_knowledge((0,0), 0)` the cell `(0,2)` is not in `safes` — it is not
adjacent to `(0,0)`, so no sentence ever mentions it. -/
theorem C6_counterexample : ((0 : ℤ), (2 : ℤ)) ∉ c6State.safes := by decide

/-- C6 amended: on the 1×3 grid, after `add_knowledge((0,0), 0)` the safes
set is exactly `{(0,0), (0,1)}` — the revealed cell and its only in-bounds
neighbour; `(0,2)` is not adjacent to `(0,0)` and is not classified. -/
theorem C6_safes_after_call :
    c6State.safes = {((0 : ℤ), (0 : ℤ)), (0, 1)} := by decide

/-- C7 counterexample: feeding the oracle report `count = 5` for `(0,0)` on
a fresh 1×3 engine, the new sentence's count (5) exceeds the size of its
cell set (`{(0,1)}`, one cell), yet the engine raises no failure: the call
returns normally with the invalid sentence retained in `knowledge`. -/
theorem C7_counterexample :
    (∃ t ∈ c7State.knowledge, (t.cells.card : ℤ) < t.count) ∧
      c7State.knowledge = [⟨{((0 : ℤ), (1 : ℤ))}, 5⟩] := by decide

/-- C7 amended: the engine performs no validation of the new sentence's
count.  A count exceeding the cell-set size (`{(0,1)} = 5`) and a negative
count (`{(0,2)} = -1`, after subtracting a known mine neighbour) are both
silently constructed and retained. -/
theorem C7_invalid_sentence_retained :
    (⟨{((0 : ℤ), (1 : ℤ))}, 5⟩ : Sentence) ∈ c7State.knowledge ∧
      (⟨{((0 : ℤ), (2 : ℤ))}, -1⟩ : Sentence) ∈ c7NegState.knowledge ∧
      (∃ t ∈ c7NegState.knowledge, t.count < 0) := by decide

/-! ### Soundness of the engine (C1) -/

/-- Removing a cell that is not a mine preserves the truth of a sentence. -/
theorem Sentence.holds_mark_safe {board : Finset Cell} {t : Sentence} {c : Cell}
    (hc : c ∉ board) (h : t.holds board) : (t.mark_safe c).holds board := by
  unfold Sentence.mark_safe
  split
  · unfold Sentence.holds at h ⊢
    simp only
    rw [Finset.filter_erase,
      Finset.erase_eq_of_not_mem (by simp [Finset.mem_filter, hc])]
    exact h
  · exact h

/-- A true sentence with `|cells| == count` has only mines as cells. -/
theorem known_mines_subset {board : Finset Cell} {t : Sentence}
    (h : t.holds board) : t.known_mines ⊆ board := by
  unfold Sentence.known_mines
  split
  · next hcard =>
      unfold Sentence.holds at h
      intro p hp
      have heq : t.cells.filter (fun p => p ∈ board) = t.cells :=
        Finset.eq_of_subset_of_card_le (Finset.filter_subset _ _) (by omega)
      rw [← heq] at hp
      exact (Finset.mem_filter.mp hp).2
  · simp

/-- A true sentence with `count == 0` has no mines among its cells. -/
theorem known_safes_disjoint {board : Finset Cell} {t : Sentence}
    (h : t.holds board) : ∀ p ∈ t.known_safes, p ∉ board := by
  unfold Sentence.known_safes
  split
  · next h0 =>
      intro p hp hpb
      unfold Sentence.holds at h
      rw [h0] at h
      have hemp : t.cells.filter (fun q => q ∈ board) = ∅ :=
        Finset.card_eq_zero.mp (by omega)
      have : p ∈ t.cells.filter (fun q => q ∈ board) :=
        Finset.mem_filter.mpr ⟨hp, hpb⟩
      rw [hemp] at this
      simp at this
  · simp

/-- Subset inference is sound: if `a` and `b` are true and `a.cells ⊆
b.cells`, the difference sentence is true. -/
theorem holds_sdiff {board : Finset Cell} {a b : Sentence}
    (hsub : a.cells ⊆ b.cells) (ha : a.holds board) (hb : b.holds board) :
    (Sentence.mk (b.cells \ a.cells) (b.count - a.count)).holds board := by
  unfold Sentence.holds at ha hb ⊢
  simp only
  have hfil : (b.cells \ a.cells).filter (fun p => p ∈ board)
      = b.cells.filter (fun p => p ∈ board) \ a.cells.filter (fun p => p ∈ board) := by
    ext p
    simp only [Finset.mem_filter, Finset.mem_sdiff]
    constructor
    · rintro ⟨⟨hpb, hpa⟩, hbd⟩
      exact ⟨⟨hpb, hbd⟩, fun hh => hpa hh.1⟩
    · rintro ⟨⟨hpb, hbd⟩, hpa⟩
      exact ⟨⟨hpb, fun hh => hpa ⟨hh, hbd⟩⟩, hbd⟩
  have hle : (a.cells.filter fun p => p ∈ board).card
      ≤ (b.cells.filter fun p => p ∈ board).card :=
    Finset.card_le_card (Finset.filter_subset_filter _ hsub)
  rw [hfil, Finset.card_sdiff (Finset.filter_subset_filter _ hsub)]
  omega

/-- All cells collected by the step-4 mine scan of a true knowledge base are
mines. -/
theorem knownMinesAll_subset {board : Finset Cell} {k : List Sentence}
    (h : ∀ t ∈ k, t.holds board) : knownMinesAll k ⊆ board := by
  induction k with
  | nil => simp [knownMinesAll]
  | cons t ts ih =>
      simp only [knownMinesAll]
      exact Finset.union_subset
        (known_mines_subset (h t (List.mem_cons_self _ _)))
        (ih fun u hu => h u (List.mem_cons_of_mem _ hu))

/-- No cell collected by the step-4 safe scan of a true knowledge base is a
mine. -/
theorem knownSafesAll_disjoint {board : Finset Cell} {k : List Sentence}
    (h : ∀ t ∈ k, t.holds board) : ∀ p ∈ knownSafesAll k, p ∉ board := by
  induction k with
  | nil => simp [knownSafesAll]
  | cons t ts ih =>
      intro p hp
      simp only [knownSafesAll, Finset.mem_union] at hp
      rcases hp with hp | hp
      · exact known_safes_disjoint (h t (List.mem_cons_self _ _)) p hp
      · exact ih (fun u hu => h u (List.mem_cons_of_mem _ hu)) p hp

/-- Every sentence produced by the step-5 pass is a difference of the new
sentence and a sentence of the knowledge base, one a subset of the other. -/
theorem mem_inferDerived {ns : Sentence} {k : List Sentence} {d : Sentence}
    (hd : d ∈ inferDerived ns k) :
    ∃ old ∈ k,
      (old.cells ⊆ ns.cells ∧ d = ⟨ns.cells \ old.cells, ns.count - old.count⟩)
        ∨ (ns.cells ⊆ old.cells ∧ d = ⟨old.cells \ ns.cells, old.count - ns.count⟩) := by
  induction k with
  | nil => simp [inferDerived] at hd
  | cons old rest ih =>
      simp only [inferDerived, List.mem_append] at hd
      rcases hd with hd | hd
      · refine ⟨old, List.mem_cons_self _ _, ?_⟩
        split at hd
        · simp only [List.mem_append] at hd
          rcases hd with hd | hd
          · split at hd
            · next hsub => simp only [List.mem_singleton] at hd; exact Or.inl ⟨hsub, hd⟩
            · simp at hd
          · split at hd
            · next hsub => simp only [List.mem_singleton] at hd; exact Or.inr ⟨hsub, hd⟩
            · simp at hd
        · simp at hd
      · obtain ⟨o, ho, hco⟩ := ih hd
        exact ⟨o, List.mem_cons_of_mem _ ho, hco⟩

/-- Every sentence produced by the step-5 pass of a true knowledge base is
true. -/
theorem inferDerived_holds {board : Finset Cell} {ns : Sentence} {k : List Sentence}
    (hns : ns.holds board) (hk : ∀ t ∈ k, t.holds board) :
    ∀ d ∈ inferDerived ns k, d.holds board := by
  intro d hd
  obtain ⟨old, hold, hcase⟩ := mem_inferDerived hd
  rcases hcase with ⟨hsub, rfl⟩ | ⟨hsub, rfl⟩
  · exact holds_sdiff hsub (hk old hold) hns
  · exact holds_sdiff hsub hns (hk old hold)

/-- Membership in the simplified knowledge list. -/
theorem mem_simplify_iff {k : List Sentence} {t : Sentence} :
    t ∈ simplify k
      ↔ t ∈ k ∧ t.cells ≠ ∅ ∧ t.count ≠ 0 ∧ (t.cells.card : ℤ) ≠ t.count := by
  unfold simplify
  simp only [List.mem_filter, decide_eq_true_eq]
  tauto

/-- The new sentence built by step 3 from the true oracle report is true,
provided the state's classifications are sound and every made move is
classified safe. -/
theorem newSentence_holds {board : Finset Cell} {s2 : AIState} {cell : Cell}
    (hm : s2.mines ⊆ board) (hsf : ∀ p ∈ s2.safes, p ∉ board)
    (hmv : s2.moves_made ⊆ s2.safes) :
    (newSentence s2 cell (nearby_mines s2.height s2.width board cell)).holds board := by
  have e1 : (sentenceCells s2 cell).filter (fun p => p ∈ board)
      = ((nbrs cell).filter fun p =>
          inBounds s2.height s2.width p ∧ p ∈ board).filter fun p => p ∉ s2.mines := by
    unfold sentenceCells
    rw [Finset.filter_filter, Finset.filter_filter]
    ext p
    simp only [Finset.mem_filter]
    constructor
    · rintro ⟨hn, ⟨hb, _, _, hmi⟩, hbd⟩
      exact ⟨hn, ⟨hb, hbd⟩, hmi⟩
    · rintro ⟨hn, ⟨hb, hbd⟩, hmi⟩
      have h1 : p ∉ s2.safes := fun hin => hsf p hin hbd
      exact ⟨hn, ⟨hb, h1, fun hin => h1 (hmv hin), hmi⟩, hbd⟩
  have e2 : nearbyKnownMines s2 cell
      = ((nbrs cell).filter fun p =>
          inBounds s2.height s2.width p ∧ p ∈ board).filter fun p => p ∈ s2.mines := by
    unfold nearbyKnownMines
    rw [Finset.filter_filter]
    ext p
    simp only [Finset.mem_filter]
    constructor
    · rintro ⟨hn, hb, _, _, hmi⟩
      exact ⟨hn, ⟨hb, hm hmi⟩, hmi⟩
    · rintro ⟨hn, ⟨hb, hbd⟩, hmi⟩
      have h1 : p ∉ s2.safes := fun hin => hsf p hin hbd
      exact ⟨hn, hb, h1, fun hin => h1 (hmv hin), hmi⟩
  have hsplit :
      (((nbrs cell).filter fun p =>
          inBounds s2.height s2.width p ∧ p ∈ board).filter fun p => p ∈ s2.mines).card
        + (((nbrs cell).filter fun p =>
          inBounds s2.height s2.width p ∧ p ∈ board).filter fun p => p ∉ s2.mines).card
      = ((nbrs cell).filter fun p => inBounds s2.height s2.width p ∧ p ∈ board).card :=
    Finset.filter_card_add_filter_neg_card_eq_card (fun p => p ∈ s2.mines)
  simp only [Sentence.holds, newSentence, nearby_mines]
  rw [e1, e2]
  omega

/-- One oracle-consistent `add_knowledge` call preserves the soundness
invariant, provided the queried cell is itself not a mine (the engine's
documented precondition: only cells verified safe are queried). -/
theorem add_knowledge_sound {board : Finset Cell} {s : AIState} {cell : Cell}
    (hs : Sound board s) (hc : cell ∉ board) :
    Sound board (add_knowledge s cell (nearby_mines s.height s.width board cell)) := by
  obtain ⟨hm, hsf, hmv, hk⟩ := hs
  have hm2 : (afterStep2 s cell).mines ⊆ board := hm
  have hsf2 : ∀ p ∈ (afterStep2 s cell).safes, p ∉ board := by
    rw [afterStep2_safes]
    intro p hp
    rcases Finset.mem_insert.mp hp with rfl | hp
    · exact hc
    · exact hsf p hp
  have hmv2 : (afterStep2 s cell).moves_made ⊆ (afterStep2 s cell).safes := by
    rw [afterStep2_moves_made, afterStep2_safes]
    exact Finset.insert_subset_insert _ hmv
  have hk2 : ∀ t ∈ (afterStep2 s cell).knowledge, t.holds board := by
    rw [afterStep2_knowledge]
    intro t ht
    obtain ⟨u, hu, rfl⟩ := List.mem_map.mp ht
    exact Sentence.holds_mark_safe hc (hk u hu)
  have hns : (newSentence (afterStep2 s cell) cell
      (nearby_mines s.height s.width board cell)).holds board :=
    newSentence_holds hm2 hsf2 hmv2
  have hk3 : ∀ t ∈ (afterStep3 s cell
      (nearby_mines s.height s.width board cell)).knowledge, t.holds board := by
    rw [afterStep3_knowledge]
    intro t ht
    rcases List.mem_append.mp ht with ht | ht
    · exact hk2 t ht
    · rw [List.mem_singleton] at ht
      subst ht
      exact hns
  refine ⟨?_, ?_, ?_, ?_⟩
  · rw [add_knowledge_mines]
    exact Finset.union_subset hm (knownMinesAll_subset hk3)
  · rw [add_knowledge_safes]
    intro p hp
    rcases Finset.mem_union.mp hp with hp | hp
    · rcases Finset.mem_insert.mp hp with rfl | hp
      · exact hc
      · exact hsf p hp
    · exact knownSafesAll_disjoint hk3 p hp
  · rw [add_knowledge_moves_made, add_knowledge_safes]
    exact (Finset.insert_subset_insert _ hmv).trans Finset.subset_union_left
  · rw [add_knowledge_knowledge]
    intro t ht
    rcases List.mem_append.mp (mem_simplify_iff.mp ht).1 with ht | ht
    · exact hk3 t ht
    · exact inferDerived_holds hns hk3 t ht

/-- Driving a sound state through any sequence of true-oracle calls on
non-mine cells keeps it sound. -/
theorem runGame_sound {board : Finset Cell} {s : AIState} {tr : List Cell}
    (hs : Sound board s) (h : ∀ c ∈ tr, c ∉ board) :
    Sound board (runGame board s tr) := by
  induction tr generalizing s with
  | nil => exact hs
  | cons c cs ih =>
      simp only [runGame]
      exact ih (add_knowledge_sound hs (h c (List.mem_cons_self _ _)))
        (fun d hd => h d (List.mem_cons_of_mem _ hd))

/-- C1: soundness of the engine.  For every sequence of `add_knowledge`
calls in which each reported count is the true `nearby_mines` count of the
fixed layout `board` (and, per the engine's documented precondition, each
queried cell is itself not a mine), every cell the engine places in `mines`
is a mine of the layout and every cell it places in `safes` is not.  The
trace is universally quantified, so the statement covers the `mines` and
`safes` sets after every prefix of calls, i.e. every cell ever placed in
them. -/
theorem C1_soundness (hgt wd : ℤ) (board : Finset Cell) (tr : List Cell)
    (h : ∀ c ∈ tr, c ∉ board) :
    (runGame board (initAI hgt wd) tr).mines ⊆ board ∧
      ∀ p ∈ (runGame board (initAI hgt wd) tr).safes, p ∉ board := by
  have hinit : Sound board (initAI hgt wd) := by
    refine ⟨?_, ?_, ?_, ?_⟩ <;> simp [initAI]
  have hrun := runGame_sound hinit h
  exact ⟨hrun.1, hrun.2.1⟩

/-- Witness for C1 at a concrete input: the empty layout on a 1×3 grid and
the single consistent call `add_knowledge((0,0), 0)`. -/
theorem C1_soundness_witness :
    (∀ c ∈ [((0 : ℤ), (0 : ℤ))], c ∉ (∅ : Finset Cell)) ∧
      ((runGame ∅ (initAI 1 3) [((0 : ℤ), (0 : ℤ))]).mines ⊆ ∅ ∧
        ∀ p ∈ (runGame ∅ (initAI 1 3) [((0 : ℤ), (0 : ℤ))]).safes,
          p ∉ (∅ : Finset Cell)) :=
  ⟨by decide, C1_soundness 1 3 ∅ [((0 : ℤ), (0 : ℤ))] (by decide)⟩

/-! ### Sentence construction (C8) -/

/-- C8: `add_knowledge` partitions the in-bounds grid neighbours of the
queried cell correctly.  Assuming the state's classifications are coherent
(no known mine is simultaneously known safe or already visited, which is
what "already known mines" versus "already known safe or visited" in the
claim presupposes): the new sentence's cells are exactly the in-bounds
neighbours in none of `mines`, `safes`, `moves_made`; its count is the
reported count minus the number of in-bounds known-mine neighbours; and the
sentence is appended to the knowledge list.  (Steps 1–2 insert the queried
cell itself into `moves_made`/`safes` first, but the queried cell is not
its own neighbour, so the partition is over the pre-call sets.) -/
theorem C8_partition (s : AIState) (cell : Cell) (count : ℤ)
    (hd : ∀ p ∈ s.mines, p ∉ s.safes ∧ p ∉ s.moves_made) :
    (newSentence (afterStep2 s cell) cell count).cells
        = ((nbrs cell).filter fun p =>
            inBounds s.height s.width p ∧ p ∉ s.mines ∧ p ∉ s.safes ∧ p ∉ s.moves_made) ∧
      (newSentence (afterStep2 s cell) cell count).count
        = count - (((nbrs cell).filter fun p =>
            inBounds s.height s.width p ∧ p ∈ s.mines).card : ℤ) ∧
      (afterStep3 s cell count).knowledge
        = (afterStep2 s cell).knowledge ++ [newSentence (afterStep2 s cell) cell count] := by
  have hnbr : ∀ p ∈ nbrs cell, p ≠ cell := by
    intro p hp
    unfold nbrs at hp
    exact (Finset.mem_erase.mp hp).1
  refine ⟨?_, ?_, rfl⟩
  · show sentenceCells (afterStep2 s cell) cell = _
    unfold sentenceCells
    ext p
    simp only [Finset.mem_filter, afterStep2_height, afterStep2_width, afterStep2_safes,
      afterStep2_moves_made, afterStep2_mines, Finset.mem_insert, not_or]
    constructor
    · rintro ⟨hn, hb, ⟨_, hs1⟩, ⟨_, hm1⟩, hmi⟩
      exact ⟨hn, hb, hmi, hs1, hm1⟩
    · rintro ⟨hn, hb, hmi, hs1, hm1⟩
      exact ⟨hn, hb, ⟨hnbr p hn, hs1⟩, ⟨hnbr p hn, hm1⟩, hmi⟩
  · show count - ((nearbyKnownMines (afterStep2 s cell) cell).card : ℤ) = _
    have he : nearbyKnownMines (afterStep2 s cell) cell
        = (nbrs cell).filter fun p => inBounds s.height s.width p ∧ p ∈ s.mines := by
      unfold nearbyKnownMines
      ext p
      simp only [Finset.mem_filter, afterStep2_height, afterStep2_width, afterStep2_safes,
        afterStep2_moves_made, afterStep2_mines, Finset.mem_insert, not_or]
      constructor
      · rintro ⟨hn, hb, _, _, hmi⟩
        exact ⟨hn, hb, hmi⟩
      · rintro ⟨hn, hb, hmi⟩
        obtain ⟨hs1, hm1⟩ := hd p hmi
        exact ⟨hn, hb, ⟨hnbr p hn, hs1⟩, ⟨hnbr p hn, hm1⟩, hmi⟩
    rw [he]

/-- Witness for C8 at a concrete input: a 2×3 state that already knows the
mine `(1,1)`, queried at `(0,0)` with reported count 3. -/
theorem C8_partition_witness :
    (∀ p ∈ c8wState.mines, p ∉ c8wState.safes ∧ p ∉ c8wState.moves_made) ∧
      ((newSentence (afterStep2 c8wState (0, 0)) (0, 0) 3).cells
          = ((nbrs (0, 0)).filter fun p =>
              inBounds c8wState.height c8wState.width p ∧ p ∉ c8wState.mines ∧
                p ∉ c8wState.safes ∧ p ∉ c8wState.moves_made) ∧
        (newSentence (afterStep2 c8wState (0, 0)) (0, 0) 3).count
          = 3 - (((nbrs (0, 0)).filter fun p =>
              inBounds c8wState.height c8wState.width p ∧ p ∈ c8wState.mines).card : ℤ) ∧
        (afterStep3 c8wState (0, 0) 3).knowledge
          = (afterStep2 c8wState (0, 0)).knowledge
              ++ [newSentence (afterStep2 c8wState (0, 0)) (0, 0) 3]) :=
  ⟨by decide, C8_partition c8wState (0, 0) 3 (by decide)⟩

/-! ### Move selection (C9) -/

/-- C9: `make_safe_move` returns `none` exactly when `safes \ moves_made`
is empty, and any cell it returns is in `safes` and not in `moves_made` (in
particular it never returns an already-made move).  The Python method only
reads state; the embedding is a pure function of the state, so no engine
state is mutated. -/
theorem C9_make_safe_move (s : AIState) :
    (make_safe_move s = none ↔ s.safes \ s.moves_made = ∅) ∧
      ∀ c, make_safe_move s = some c → c ∈ s.safes ∧ c ∉ s.moves_made := by
  constructor
  · constructor
    · intro h
      unfold make_safe_move at h
      have hnil : (s.safes \ s.moves_made).sort lexLe = [] := by
        cases hh : (s.safes \ s.moves_made).sort lexLe with
        | nil => rfl
        | cons a l => rw [hh] at h; simp at h
      have hcard : (s.safes \ s.moves_made).card = 0 := by
        have hlen := Finset.length_sort (s := s.safes \ s.moves_made) lexLe
        rw [hnil] at hlen
        simpa using hlen.symm
      exact Finset.card_eq_zero.mp hcard
    · intro h
      unfold make_safe_move
      rw [h, Finset.sort_empty]
      rfl
  · intro c hc
    unfold make_safe_move at hc
    have hmem : c ∈ (s.safes \ s.moves_made).sort lexLe := by
      cases hh : (s.safes \ s.moves_made).sort lexLe with
      | nil => rw [hh] at hc; simp at hc
      | cons a l =>
          rw [hh] at hc
          simp only [List.head?_cons, Option.some.injEq] at hc
          subst hc
          exact List.mem_cons_self _ _
    have hin := (Finset.mem_sort (s := s.safes \ s.moves_made) lexLe).mp hmem
    exact ⟨(Finset.mem_sdiff.mp hin).1, (Finset.mem_sdiff.mp hin).2⟩

/-! ### Monotonicity of the classification sets (C10) -/

/-- C10: no engine operation removes an element of `moves_made`, `mines` or
`safes`.  `add_knowledge` only inserts into all three, and the
`mark_mine` / `mark_safe` helpers only insert into one and leave the others
unchanged; `make_safe_move` and `make_random_move` are pure queries (they
take the state and return only a move), so after any call each of the three
sets is a superset of its value before the call. -/
theorem C10_monotone (s : AIState) (cell c : Cell) (count : ℤ) :
    (s.moves_made ⊆ (add_knowledge s cell count).moves_made ∧
      s.mines ⊆ (add_knowledge s cell count).mines ∧
      s.safes ⊆ (add_knowledge s cell count).safes) ∧
      (s.moves_made ⊆ (AIState.mark_mine s c).moves_made ∧
        s.mines ⊆ (AIState.mark_mine s c).mines ∧
        s.safes ⊆ (AIState.mark_mine s c).safes) ∧
      (s.moves_made ⊆ (AIState.mark_safe s c).moves_made ∧
        s.mines ⊆ (AIState.mark_safe s c).mines ∧
        s.safes ⊆ (AIState.mark_safe s c).safes) := by
  refine ⟨⟨?_, ?_, ?_⟩, ⟨?_, ?_, ?_⟩, ⟨?_, ?_, ?_⟩⟩
  · rw [add_knowledge_moves_made]
    exact Finset.subset_insert _ _
  · rw [add_knowledge_mines]
    exact Finset.subset_union_left
  · rw [add_knowledge_safes]
    exact (Finset.subset_insert _ _).trans Finset.subset_union_left
  · exact Finset.Subset.refl _
  · exact Finset.subset_insert _ _
  · exact Finset.Subset.refl _
  · exact Finset.Subset.refl _
  · exact Finset.Subset.refl _
  · exact Finset.subset_insert _ _

/-! ### The subset-inference pass (C4, amended) -/

/-- If `old` is in the scanned list, the left-difference sentence derived
from the pair `(old, new_sentence)` is produced by the step-5 pass. -/
theorem inferDerived_mem_left {ns : Sentence} {k : List Sentence} {old : Sentence}
    (h : old ∈ k) (h1 : ns.cells ≠ ∅) (h2 : old.cells ≠ ns.cells)
    (h3 : old.cells ⊆ ns.cells) :
    (⟨ns.cells \ old.cells, ns.count - old.count⟩ : Sentence) ∈ inferDerived ns k := by
  induction k with
  | nil => simp at h
  | cons a rest ih =>
      simp only [inferDerived, List.mem_append]
      rcases List.mem_cons.mp h with rfl | h
      · left
        rw [if_pos ⟨h1, h2⟩]
        refine List.mem_append.mpr (Or.inl ?_)
        rw [if_pos h3]
        exact List.mem_singleton_self _
      · right
        exact ih h

/-- If `old` is in the scanned list, the right-difference sentence derived
from the pair `(old, new_sentence)` is produced by the step-5 pass. -/
theorem inferDerived_mem_right {ns : Sentence} {k : List Sentence} {old : Sentence}
    (h : old ∈ k) (h1 : ns.cells ≠ ∅) (h2 : old.cells ≠ ns.cells)
    (h3 : ns.cells ⊆ old.cells) :
    (⟨old.cells \ ns.cells, old.count - ns.count⟩ : Sentence) ∈ inferDerived ns k := by
  induction k with
  | nil => simp at h
  | cons a rest ih =>
      simp only [inferDerived, List.mem_append]
      rcases List.mem_cons.mp h with rfl | h
      · left
        rw [if_pos ⟨h1, h2⟩]
        refine List.mem_append.mpr (Or.inr ?_)
        rw [if_pos h3]
        exact List.mem_singleton_self _
      · right
        exact ih h

/-- When the new sentence's cell set is empty, the guard
`new_sentence.cells != set()` skips every pair: the step-5 pass produces
nothing. -/
theorem inferDerived_of_empty {ns : Sentence} (h : ns.cells = ∅) (k : List Sentence) :
    inferDerived ns k = [] := by
  induction k with
  | nil => rfl
  | cons a rest ih =>
      simp only [inferDerived, ih]
      rw [if_neg (fun hc => hc.1 h)]
      rfl

/-- C4 amended: the subset-inference pass compares only the sentence just
added with each sentence of the (post-append) knowledge base, and only when
the new sentence's cell set is nonempty: with an empty new cell set the
pass produces nothing at all; otherwise, for every sentence `t` of the list
with a cell set different from the new sentence's, if `t`'s cells are a
subset of the new sentence's cells the derived difference sentence
`(new.cells - t.cells, new.count - t.count)` is added, and symmetrically if
the new sentence's cells are a subset of `t`'s the derived sentence
`(t.cells - new.cells, t.count - new.count)` is added — each being present
in the knowledge base when `add_knowledge` returns whenever it does not
fall to the degenerate-sentence filters of step 6.  (Pairs of two older
sentences are never compared; see the counterexample.) -/
theorem C4_new_sentence_subset_inference (s : AIState) (cell : Cell) (count : ℤ)
    (t : Sentence)
    (ht : t ∈ (afterStep3 s cell count).knowledge) :
    ((newSentence (afterStep2 s cell) cell count).cells = ∅ →
      inferDerived (newSentence (afterStep2 s cell) cell count)
        (afterStep3 s cell count).knowledge = []) ∧
    ((newSentence (afterStep2 s cell) cell count).cells ≠ ∅ →
      t.cells ≠ (newSentence (afterStep2 s cell) cell count).cells →
      (t.cells ⊆ (newSentence (afterStep2 s cell) cell count).cells →
        (newSentence (afterStep2 s cell) cell count).count - t.count ≠ 0 →
        (((newSentence (afterStep2 s cell) cell count).cells \ t.cells).card : ℤ)
            ≠ (newSentence (afterStep2 s cell) cell count).count - t.count →
        (⟨(newSentence (afterStep2 s cell) cell count).cells \ t.cells,
          (newSentence (afterStep2 s cell) cell count).count - t.count⟩ : Sentence)
          ∈ (add_knowledge s cell count).knowledge) ∧
      ((newSentence (afterStep2 s cell) cell count).cells ⊆ t.cells →
        t.count - (newSentence (afterStep2 s cell) cell count).count ≠ 0 →
        ((t.cells \ (newSentence (afterStep2 s cell) cell count).cells).card : ℤ)
            ≠ t.count - (newSentence (afterStep2 s cell) cell count).count →
        (⟨t.cells \ (newSentence (afterStep2 s cell) cell count).cells,
          t.count - (newSentence (afterStep2 s cell) cell count).count⟩ : Sentence)
          ∈ (add_knowledge s cell count).knowledge)) := by
  constructor
  · intro hemp
    exact inferDerived_of_empty hemp _
  · intro hne hdiff
    constructor
    · intro hsub hcount hcard
      have hmem : (⟨(newSentence (afterStep2 s cell) cell count).cells \ t.cells,
          (newSentence (afterStep2 s cell) cell count).count - t.count⟩ : Sentence)
          ∈ inferDerived (newSentence (afterStep2 s cell) cell count)
              (afterStep3 s cell count).knowledge :=
        inferDerived_mem_left ht hne hdiff hsub
      rw [add_knowledge_knowledge, mem_simplify_iff]
      refine ⟨List.mem_append_right _ hmem, ?_, hcount, hcard⟩
      intro hemp
      exact hdiff (le_antisymm hsub (Finset.sdiff_eq_empty_iff_subset.mp hemp))
    · intro hsub hcount hcard
      have hmem : (⟨t.cells \ (newSentence (afterStep2 s cell) cell count).cells,
          t.count - (newSentence (afterStep2 s cell) cell count).count⟩ : Sentence)
          ∈ inferDerived (newSentence (afterStep2 s cell) cell count)
              (afterStep3 s cell count).knowledge :=
        inferDerived_mem_right ht hne hdiff hsub
      rw [add_knowledge_knowledge, mem_simplify_iff]
      refine ⟨List.mem_append_right _ hmem, ?_, hcount, hcard⟩
      intro hemp
      exact hdiff (le_antisymm (Finset.sdiff_eq_empty_iff_subset.mp hemp) hsub)

/-- Witness for the amended C4 at concrete inputs, exercising both subset
directions: in `c4wPre` (holding `{(1,2),(1,3)} = 1`, a strict subset of
the new sentence built by `add_knowledge((0,3), 2)`), the left-difference
sentence survives in the final knowledge base; in `c4wPre2` (holding a
7-cell sentence strictly containing that new sentence), the
right-difference sentence `{(8,8),(9,9)} = 1` survives. -/
theorem C4_new_sentence_subset_inference_witness :
    ((⟨{((1 : ℤ), (2 : ℤ)), (1, 3)}, 1⟩ : Sentence)
        ∈ (afterStep3 c4wPre (0, 3) 2).knowledge) ∧
      (⟨(newSentence (afterStep2 c4wPre (0, 3)) (0, 3) 2).cells
          \ ({((1 : ℤ), (2 : ℤ)), (1, 3)} : Finset Cell),
        (newSentence (afterStep2 c4wPre (0, 3)) (0, 3) 2).count - 1⟩ : Sentence)
        ∈ (add_knowledge c4wPre (0, 3) 2).knowledge ∧
      (⟨({((0 : ℤ), (2 : ℤ)), (0, 4), (1, 2), (1, 3), (1, 4), (8, 8), (9, 9)} : Finset Cell)
          \ (newSentence (afterStep2 c4wPre2 (0, 3)) (0, 3) 2).cells,
        3 - (newSentence (afterStep2 c4wPre2 (0, 3)) (0, 3) 2).count⟩ : Sentence)
        ∈ (add_knowledge c4wPre2 (0, 3) 2).knowledge :=
  ⟨by decide,
    ((C4_new_sentence_subset_inference c4wPre (0, 3) 2
        ⟨{((1 : ℤ), (2 : ℤ)), (1, 3)}, 1⟩ (by decide)).2
      (by decide) (by decide)).1 (by decide) (by decide) (by decide),
    ((C4_new_sentence_subset_inference c4wPre2 (0, 3) 2
        ⟨{((0 : ℤ), (2 : ℤ)), (0, 4), (1, 2), (1, 3), (1, 4), (8, 8), (9, 9)}, 3⟩
        (by decide)).2
      (by decide) (by decide)).2 (by decide) (by decide) (by decide)⟩
